import Mathlib

/-!
Verification of the memento-mcp knowledge-graph server: a shallow embedding
of the ontology aggregation (`src/server/handlers/toolHandlers/getOntology.ts`
and the inline `get_ontology` branch of `handleToolCall` in
`src/types/relation.ts`), the Neo4j integer normalisation
(`convertNeo4jIntegers` in `readGraph.ts`/`getOntology.ts`), the embedding
backfill script (`scripts/update_missing_embeddings.mjs`), the label
sanitizer (`scripts/addEntityTypeLabels.js`), and the confidence-decay law
of the specification, together with theorems settling the frozen claims.

Conventions of the embedding: JavaScript objects used as string-keyed maps
become association lists in insertion order (JS preserves string-key
insertion order); `Array.prototype.sort` (required stable since ES2019) is
modelled by a stable insertion sort; `String.prototype.localeCompare` is
modelled by code-point lexicographic comparison, which agrees with it on
the ASCII identifiers this repository manipulates; a JS value that may be
`undefined` becomes an `Option`.
-/

/-! ## String utilities of the embedding -/

/-- Code-point lexicographic comparison on character lists; the model of
`a.localeCompare(b) <= 0` used for every sort comparator in the sources. -/
def lexLe : List Char → List Char → Bool
  | [], _ => true
  | _ :: _, [] => false
  | a :: as, b :: bs => if a = b then lexLe as bs else decide (a < b)

/-- Lexicographic order on strings. -/
def strLe (a b : String) : Bool := lexLe a.data b.data

/-- Stable insertion of one element into a sorted list. -/
def insertBy (le : α → α → Bool) (x : α) : List α → List α
  | [] => [x]
  | y :: ys => if le x y then x :: y :: ys else y :: insertBy le x ys

/-- Stable insertion sort; the model of `Array.prototype.sort(cmp)`, which
ECMAScript requires to be a stable sort. -/
def sortBy (le : α → α → Bool) : List α → List α
  | [] => []
  | x :: xs => insertBy le x (sortBy le xs)

/-- Does the character list `n` occur as a contiguous run inside `hay`? -/
def occursAux (n : List Char) : List Char → Bool
  | [] => n.isEmpty
  | c :: rest => n.isPrefixOf (c :: rest) || occursAux n rest

/-- Substring test: `strOccurs needle hay` holds when `needle` occurs
contiguously in `hay`. -/
def strOccurs (needle hay : String) : Bool := occursAux needle.data hay.data

/-- Split a character list at every newline character. -/
def splitOnNl : List Char → List (List Char)
  | [] => [[]]
  | c :: rest =>
    if c = '\n' then [] :: splitOnNl rest
    else
      match splitOnNl rest with
      | [] => [[c]]
      | l :: ls => (c :: l) :: ls

/-- Lines of a string, splitting at every newline character. -/
def splitLines (s : String) : List String := (splitOnNl s.data).map String.mk

/-! ## Data model

Entities and relations as consumed by the ontology pass: `getOntology.ts`
reads them from the JSON snapshot produced by `readGraph`, so `entityType`
may be absent on a malformed stored record (modelled as `Option`), while
`name`, `from`, `to`, `relationType` are strings (`relation.ts` declares
them `string`; a missing `relationType` behaves like the empty string under
the falsiness test of line 41 of `getOntology.ts`). -/

structure Entity where
  name : String
  entityType : Option String
  deriving Repr, DecidableEq

structure KGRelation where
  from_ : String
  to_ : String
  relationType : String
  deriving Repr, DecidableEq

structure KnowledgeGraph where
  entities : List Entity
  relations : List KGRelation
  deriving Repr, DecidableEq

/-- One `{ from, to, count }` connection record of `extractOntology`;
`from`/`to` are the entity types of the endpoints and are `undefined` in JS
when the endpoint entity has no `entityType` field. -/
structure Conn where
  from_ : Option String
  to_ : Option String
  count : Nat
  deriving Repr, DecidableEq

/-- The `entityTypes` record of `extractOntology`: a string-keyed JS object
in insertion order. -/
abbrev EntityTypes := List (String × Nat)

/-- The `relationTypes` record of `extractOntology`. -/
abbrev RelationTypes := List (String × List Conn)

/-- The value returned by `extractOntology`. -/
structure Ontology where
  entityTypes : EntityTypes
  relationTypes : RelationTypes
  deriving Repr, DecidableEq

/-! ## extractOntology (getOntology.ts lines 22 to 77) -/

/-- One step of `entityTypes[t] = (entityTypes[t] || 0) + 1`: increment the
entry of key `t`, appending a fresh entry at the end when absent. -/
def bumpEntityType (t : String) : EntityTypes → EntityTypes
  | [] => [(t, 1)]
  | (k, n) :: rest =>
    if k = t then (k, n + 1) :: rest else (k, n) :: bumpEntityType t rest

/-- Entity pass of `extractOntology` (lines 30 to 36): count entity types,
skipping entities whose `entityType` is falsy (absent or empty string). -/
def countEntityTypes (es : List Entity) : EntityTypes :=
  es.foldl
    (fun acc e =>
      match e.entityType with
      | some t => if t = "" then acc else bumpEntityType t acc
      | none => acc)
    []

/-- Inner step of the relation pass (lines 57 to 72): find the connection
with this `(fromType, toType)` pair and increment its count, else push a
fresh `{ from, to, count: 1 }` record at the end. -/
def bumpConn (fT tT : Option String) : List Conn → List Conn
  | [] => [⟨fT, tT, 1⟩]
  | c :: rest =>
    if c.from_ = fT ∧ c.to_ = tT then ⟨c.from_, c.to_, c.count + 1⟩ :: rest
    else c :: bumpConn fT tT rest

/-- Register one connection under key `t` in the `relationTypes` record
(lines 52 to 72), initialising the key with an empty list when absent. -/
def insertConn (t : String) (fT tT : Option String) : RelationTypes → RelationTypes
  | [] => [(t, [⟨fT, tT, 1⟩])]
  | (k, cs) :: rest =>
    if k = t then (k, bumpConn fT tT cs) :: rest
    else (k, cs) :: insertConn t fT tT rest

/-- Body of the relation loop (lines 40 to 73): skip when `relationType` is
falsy, resolve both endpoints by name in `graph.entities` with
`Array.prototype.find`, skip when either is unresolved, else accumulate. -/
def addRelation (es : List Entity) (acc : RelationTypes) (r : KGRelation) : RelationTypes :=
  if r.relationType = "" then acc
  else
    match es.find? (fun e => e.name == r.from_), es.find? (fun e => e.name == r.to_) with
    | some fe, some te => insertConn r.relationType fe.entityType te.entityType acc
    | _, _ => acc

/-- Translation of `extractOntology` of `getOntology.ts`. -/
def extractOntology (g : KnowledgeGraph) : Ontology :=
  { entityTypes := countEntityTypes g.entities
    relationTypes := g.relations.foldl (addRelation g.entities) [] }

/-! ## formatOntology (getOntology.ts lines 84 to 137) -/

/-- JS template-literal coercion of a possibly-`undefined` string. -/
def jsShow : Option String → String
  | some s => s
  | none => "undefined"

/-- One line of the entity-type block (line 100). -/
def entityLine (p : String × Nat) : String :=
  "EntityType: " ++ p.1 ++ " (" ++ toString p.2 ++ ")\n"

/-- Entity-type block (lines 96 to 103): entries sorted with
`localeCompare` on the key, rendered and concatenated. -/
def entityBlock (es : EntityTypes) : String :=
  String.join ((sortBy (fun a b => strLe a.1 b.1) es).map entityLine)

/-- Grouping key `` `${conn.from}→${conn.to}` `` of line 117. -/
def connKey (c : Conn) : String := jsShow c.from_ ++ "→" ++ jsShow c.to_

/-- One step of the defensive re-grouping (lines 116 to 123): merge into the
group of the same key, summing counts, else append a copy. -/
def bumpGroup (c : Conn) : List (String × Conn) → List (String × Conn)
  | [] => [(connKey c, c)]
  | (k, g) :: rest =>
    if k = connKey c then (k, ⟨g.from_, g.to_, g.count + c.count⟩) :: rest
    else (k, g) :: bumpGroup c rest

/-- The `groupedConnections` record of lines 114 to 123, in insertion
order. -/
def groupConns (cs : List Conn) : List (String × Conn) :=
  cs.foldl (fun acc c => bumpGroup c acc) []

/-- Comparator of line 127, `a.from.localeCompare(b.from) ||
a.to.localeCompare(b.to)`. On connections whose endpoint types are present
(`some`), this coincides with the JS comparator. When the receiving
endpoint is `undefined` the JS comparator instead throws a TypeError, and
which argument of a pair `Array.prototype.sort` uses as the receiver is
engine-dependent, so that path has no defined result to embed: this total
function is an exact model only on the all-`some` domain, the theorem on
claim C2 carries that domain as a hypothesis and proves the sorted groups
stay inside it, and the theorem on claim C4 records how the `undefined`
endpoint arises. -/
def connLe (a b : Conn) : Bool :=
  if jsShow a.from_ = jsShow b.from_ then strLe (jsShow a.to_) (jsShow b.to_)
  else strLe (jsShow a.from_) (jsShow b.from_)

/-- One output line of the relation-type block (line 129). -/
def connLine (t : String) (c : Conn) : String :=
  "RelationType: " ++ t ++ " (EntityType: " ++ jsShow c.from_ ++
    " → EntityType: " ++ jsShow c.to_ ++ ") (" ++ toString c.count ++ ")\n"

/-- Lines emitted for one relation type (lines 112 to 130): regroup, sort
the group values, render. -/
def relationGroupLines (t : String) (cs : List Conn) : String :=
  String.join ((sortBy connLe ((groupConns cs).map Prod.snd)).map (connLine t))

/-- Relation-type block (lines 109 to 131): entries sorted with
`localeCompare` on the key. -/
def relationBlock (rs : RelationTypes) : String :=
  String.join ((sortBy (fun a b => strLe a.1 b.1) rs).map
    (fun p => relationGroupLines p.1 p.2))

/-- Translation of `formatOntology` of `getOntology.ts`: the imperative
`output +=` accumulation is the concatenation of the two blocks, with the
three empty-half literals of lines 92, 105 and 133. -/
def formatOntology (o : Ontology) : String :=
  if o.entityTypes = [] ∧ o.relationTypes = [] then
    "No entities or relations found in the knowledge graph."
  else
    (if o.entityTypes = [] then "No entity types found in the knowledge graph.\n\n"
     else entityBlock o.entityTypes ++ "\n") ++
    (if o.relationTypes = [] then "No relation types found in the knowledge graph."
     else relationBlock o.relationTypes)

/-! ## The inline get_ontology branch of handleToolCall (relation.ts lines 158 to 272)

Translated independently from `src/types/relation.ts`; the branch duplicates
the aggregation and formatting of `getOntology.ts` inline and returns the
formatted text in the `ontology` field of its result object. -/

/-- Step `entityTypes[t] = (entityTypes[t] || 0) + 1` of relation.ts line 166. -/
def tcBumpEntityType (t : String) : EntityTypes → EntityTypes
  | [] => [(t, 1)]
  | (k, n) :: rest =>
    if k = t then (k, n + 1) :: rest else (k, n) :: tcBumpEntityType t rest

/-- Entity pass of relation.ts lines 163 to 168 (`graph.entities.forEach`). -/
def tcCountEntityTypes (es : List Entity) : EntityTypes :=
  es.foldl
    (fun acc e =>
      match e.entityType with
      | some t => if t = "" then acc else tcBumpEntityType t acc
      | none => acc)
    []

/-- Inner step of the relation loop of relation.ts lines 190 to 205. -/
def tcBumpConn (fT tT : Option String) : List Conn → List Conn
  | [] => [⟨fT, tT, 1⟩]
  | c :: rest =>
    if c.from_ = fT ∧ c.to_ = tT then ⟨c.from_, c.to_, c.count + 1⟩ :: rest
    else c :: tcBumpConn fT tT rest

/-- Key registration of relation.ts lines 185 to 205. -/
def tcInsertConn (t : String) (fT tT : Option String) : RelationTypes → RelationTypes
  | [] => [(t, [⟨fT, tT, 1⟩])]
  | (k, cs) :: rest =>
    if k = t then (k, tcBumpConn fT tT cs) :: rest
    else (k, cs) :: tcInsertConn t fT tT rest

/-- Body of the relation loop of relation.ts lines 173 to 206. -/
def tcAddRelation (es : List Entity) (acc : RelationTypes) (r : KGRelation) : RelationTypes :=
  if r.relationType = "" then acc
  else
    match es.find? (fun e => e.name == r.from_), es.find? (fun e => e.name == r.to_) with
    | some fe, some te => tcInsertConn r.relationType fe.entityType te.entityType acc
    | _, _ => acc

/-- The `entityTypes` and `relationTypes` records computed inline by the
`get_ontology` branch (relation.ts lines 163 to 206). -/
def tcExtractOntology (g : KnowledgeGraph) : Ontology :=
  { entityTypes := tcCountEntityTypes g.entities
    relationTypes := g.relations.foldl (tcAddRelation g.entities) [] }

/-- Regrouping step of relation.ts lines 245 to 252. -/
def tcBumpGroup (c : Conn) : List (String × Conn) → List (String × Conn)
  | [] => [(connKey c, c)]
  | (k, g) :: rest =>
    if k = connKey c then (k, ⟨g.from_, g.to_, g.count + c.count⟩) :: rest
    else (k, g) :: tcBumpGroup c rest

/-- The `groupedConnections` record of relation.ts lines 243 to 252. -/
def tcGroupConns (cs : List Conn) : List (String × Conn) :=
  cs.foldl (fun acc c => tcBumpGroup c acc) []

/-- Lines emitted for one relation type, relation.ts lines 241 to 260. -/
def tcRelationGroupLines (t : String) (cs : List Conn) : String :=
  String.join ((sortBy connLe ((tcGroupConns cs).map Prod.snd)).map (connLine t))

/-- The `ontology` string built by the branch (relation.ts lines 209 to 271),
including the early return of lines 216 to 222 for the all-empty case. -/
def tcOntologyText (g : KnowledgeGraph) : String :=
  let o := tcExtractOntology g
  if o.entityTypes = [] ∧ o.relationTypes = [] then
    "No entities or relations found in the knowledge graph."
  else
    (if o.entityTypes = [] then "No entity types found in the knowledge graph.\n\n"
     else String.join ((sortBy (fun a b => strLe a.1 b.1) o.entityTypes).map entityLine) ++ "\n") ++
    (if o.relationTypes = [] then "No relation types found in the knowledge graph."
     else String.join ((sortBy (fun a b => strLe a.1 b.1) o.relationTypes).map
       (fun p => tcRelationGroupLines p.1 p.2)))

/-! ## convertNeo4jIntegers (readGraph.ts lines 3 to 14, getOntology.ts lines 4 to 15)

JSON-like JS values: a Neo4j integer wrapper (`neo4j.isInt` true), plain
numbers (integral, as produced by `toNumber`), strings, booleans, `null`
(which fails the `obj && typeof obj === 'object'` guard by falsiness),
arrays and plain objects. -/

inductive JsonVal where
  | neoInt (n : Int)
  | num (n : Int)
  | str (s : String)
  | boolean (b : Bool)
  | null
  | arr (xs : List JsonVal)
  | obj (fields : List (String × JsonVal))

mutual

/-- Translation of `convertNeo4jIntegers`: unwrap Neo4j integers via
`toNumber()`, map over arrays, rebuild objects entry by entry
(`Object.fromEntries(Object.entries(obj).map ...)`), return every other
value unchanged. -/
def convertNeo4jIntegers : JsonVal → JsonVal
  | .neoInt n => .num n
  | .arr xs => .arr (convertNeo4jList xs)
  | .obj fs => .obj (convertNeo4jFields fs)
  | .num n => .num n
  | .str s => .str s
  | .boolean b => .boolean b
  | .null => .null

/-- The `obj.map(convertNeo4jIntegers)` of line 8, elementwise. -/
def convertNeo4jList : List JsonVal → List JsonVal
  | [] => []
  | v :: rest => convertNeo4jIntegers v :: convertNeo4jList rest

/-- The `Object.entries(obj).map(([k, v]) => [k, convertNeo4jIntegers(v)])`
of lines 10 to 12, entry by entry. -/
def convertNeo4jFields : List (String × JsonVal) → List (String × JsonVal)
  | [] => []
  | (k, v) :: rest => (k, convertNeo4jIntegers v) :: convertNeo4jFields rest

end

/-! ## Embedding backfill script (scripts/update_missing_embeddings.mjs)

The script renders each entity lacking an embedding into text, generates an
embedding for that text, and stores it. `JSON.parse` is modelled by an
abstract parameter `parse : String → Option JsonVal` (`none` for a throw);
`String(v)` and the template-literal coercion of an observation are
modelled by `jsToString`, with the `Array.prototype.join` convention that a
`null` element renders as the empty string. -/

mutual

/-- Model of the JS string coercion `String(v)` / `` `${v}` ``. -/
def jsToString : JsonVal → String
  | .neoInt n => toString n
  | .num n => toString n
  | .str s => s
  | .boolean b => if b then "true" else "false"
  | .null => "null"
  | .arr xs => jsJoinArr xs
  | .obj _ => "[object Object]"

/-- Model of `Array.prototype.toString`, a comma join rendering `null`
elements as empty. -/
def jsJoinArr : List JsonVal → String
  | [] => ""
  | [.null] => ""
  | [v] => jsToString v
  | .null :: rest => "," ++ jsJoinArr rest
  | v :: rest => jsToString v ++ "," ++ jsJoinArr rest

end

/-- Entity record as consumed by the backfill script. The script reads
`entity.name`, `entity.entityType` and `entity.observations`; the stored
record also carries a metadata map (spec section 3), which the script never
reads. -/
structure ScriptEntity where
  name : String
  entityType : String
  observations : JsonVal
  metadata : List (String × String)

/-- Normalisation of `entity.observations` (script lines 31 to 41): a string
is fed to `JSON.parse`, a parse failure falls back to a one-element array of
the bare string; any non-array result (including a parsed non-array value)
is wrapped as `[String(value)]`. -/
def normalizeObservations (parse : String → Option JsonVal) : JsonVal → List JsonVal
  | .str s =>
    match parse s with
    | none => [.str s]
    | some (.arr xs) => xs
    | some v => [.str (jsToString v)]
  | .arr xs => xs
  | v => [.str (jsToString v)]

/-- Text rendering of script lines 26 to 47: header lines, then one
`- observation` line per normalised observation, or the literal
`  (No observations)` marker when there are none, joined with newlines. -/
def buildEmbeddingText (parse : String → Option JsonVal) (e : ScriptEntity) : String :=
  let obs := normalizeObservations parse e.observations
  let obsLines :=
    if obs.length > 0 then obs.map (fun o => "- " ++ jsToString o)
    else ["  (No observations)"]
  String.intercalate "\n" (["Name: " ++ e.name, "Type: " ++ e.entityType,
    "Observations:"] ++ obsLines)

/-- Entity as seen by the backfill loop: the name (used as the key of the
embedding update) and whether an embedding is already present. -/
structure BatchEntity where
  name : String
  hasEmbedding : Bool
  deriving Repr, DecidableEq

/-- The backfill loop of script lines 23 to 67: entities with an embedding
are skipped; for the others `generateEmbedding` runs, modelled by `embed`
with `Except` capturing a rejected promise. The loop body has no handler, so
the first failure propagates out of `main` (where the `main().catch` of
lines 72 to 75 logs and exits); entities after it are never reached. The
first component collects the names whose embedding update ran, the second
the propagated failure, if any. -/
def runBackfill (embed : String → Except String (List Int)) :
    List BatchEntity → List String × Option String
  | [] => ([], none)
  | e :: rest =>
    if e.hasEmbedding then runBackfill embed rest
    else
      match embed e.name with
      | .error msg => ([], some msg)
      | .ok _ =>
        let done := runBackfill embed rest
        (e.name :: done.1, done.2)

/-! ## Label sanitizer (scripts/addEntityTypeLabels.js lines 10 to 22) -/

/-- Character map of the `replace(/[^a-zA-Z0-9_]/g, '_')` of line 14. -/
def sanitizeChar (c : Char) : Char :=
  if c.isAlphanum ∨ c = '_' then c else '_'

/-- The `sanitized` string of line 14. -/
def sanitizeChars (s : String) : String := String.mk (s.data.map sanitizeChar)

/-- The `/^[a-zA-Z]/.test(sanitized)` of line 17. -/
def headIsAlpha (s : String) : Bool :=
  match s.data with
  | [] => false
  | c :: _ => c.isAlpha

/-- Translation of `sanitizeLabel`: a falsy (empty) input maps to `Unknown`;
otherwise invalid characters become underscores and a non-letter leading
character is handled by prefixing `T_`. -/
def sanitizeLabel (entityType : String) : String :=
  if entityType = "" then "Unknown"
  else
    let sanitized := sanitizeChars entityType
    if headIsAlpha sanitized then sanitized else "T_" ++ sanitized

/-! ## Decay function

Modelled from the spec: the Decay Function of section 4.2 is not present
under `src/` (only the spec describes it), so its recommended law
`effective(stored, elapsedTime, halfLife, floor) = floor + (stored - floor)
* 2^(-elapsed/halfLife)` is transcribed over the reals. -/

noncomputable def effective (stored elapsed halfLife floor : ℝ) : ℝ :=
  floor + (stored - floor) * (2 : ℝ) ^ (-(elapsed / halfLife))


/-! ## Derived definitions used by the verification -/

def exampleGraph : KnowledgeGraph :=
  { entities :=
      [ ⟨"Person1", some "Person"⟩, ⟨"Person2", some "Person"⟩,
        ⟨"Team1", some "Team"⟩, ⟨"Project1", some "Project"⟩ ]
    relations :=
      [ ⟨"Person1", "Team1", "isMemberOf"⟩, ⟨"Person2", "Team1", "isMemberOf"⟩,
        ⟨"Project1", "Team1", "createdBy"⟩ ] }

def lookupET (t : String) : EntityTypes → Option Nat
  | [] => none
  | (k, n) :: rest => if k = t then some n else lookupET t rest

def etCount (t : String) (es : EntityTypes) : Nat := (lookupET t es).getD 0

def lookupRT (t : String) : RelationTypes → Option (List Conn)
  | [] => none
  | (k, cs) :: rest => if k = t then some cs else lookupRT t rest

def connMatch (fT tT : Option String) (c : Conn) : Bool :=
  c.from_ == fT && c.to_ == tT

def sumConn (fT tT : Option String) (cs : List Conn) : Nat :=
  ((cs.filter (connMatch fT tT)).map Conn.count).sum

def connCount (rts : RelationTypes) (t : String) (fT tT : Option String) : Nat :=
  sumConn fT tT ((lookupRT t rts).getD [])

def resolveType (es : List Entity) (n : String) : Option (Option String) :=
  (es.find? (fun e => e.name == n)).map Entity.entityType

def relMatches (es : List Entity) (t : String) (fT tT : Option String) (r : KGRelation) : Bool :=
  r.relationType == t && resolveType es r.from_ == some fT && resolveType es r.to_ == some tT

def distinctPair (a b : Conn) : Prop := ¬ (a.from_ = b.from_ ∧ a.to_ = b.to_)

def rtGood (acc : RelationTypes) : Prop :=
  ∀ u cs, lookupRT u acc = some cs → cs.Pairwise distinctPair

def linesData : List (List Char) → List Char
  | [] => []
  | l :: ls => l ++ '\n' :: linesData ls

def nlFree (s : String) : Bool := s.data.all (fun c => c != '\n')

def eLineText (p : String × Nat) : String :=
  "EntityType: " ++ p.1 ++ " (" ++ toString p.2 ++ ")"

def cLineText (t : String) (c : Conn) : String :=
  "RelationType: " ++ t ++ " (EntityType: " ++ jsShow c.from_ ++
    " → EntityType: " ++ jsShow c.to_ ++ ") (" ++ toString c.count ++ ")"

def entityLineTexts (es : EntityTypes) : List String :=
  (sortBy (fun a b => strLe a.1 b.1) es).map eLineText

def relLineTexts (rs : RelationTypes) : List String :=
  ((sortBy (fun a b => strLe a.1 b.1) rs).map
    (fun p => (sortBy connLe ((groupConns p.2).map Prod.snd)).map (cLineText p.1))).flatten


/-! ## Theorems -/

/-- C3: on the concrete graph of spec section 8 (two Person entities, one Team, one Project, two isMemberOf relations and one createdBy relation), `extractOntology` returns entityTypes Person 2, Team 1, Project 1, and the formatted ontology contains the five expected lines. -/
theorem extractOntology_example :
    (extractOntology exampleGraph).entityTypes = [("Person", 2), ("Team", 1), ("Project", 1)]
  ∧ strOccurs "EntityType: Person (2)" (formatOntology (extractOntology exampleGraph)) = true
  ∧ strOccurs "EntityType: Team (1)" (formatOntology (extractOntology exampleGraph)) = true
  ∧ strOccurs "EntityType: Project (1)" (formatOntology (extractOntology exampleGraph)) = true
  ∧ strOccurs "RelationType: isMemberOf (EntityType: Person → EntityType: Team) (2)"
      (formatOntology (extractOntology exampleGraph)) = true
  ∧ strOccurs "RelationType: createdBy (EntityType: Project → EntityType: Team) (1)"
      (formatOntology (extractOntology exampleGraph)) = true := by
  refine ⟨by decide, by decide, by decide, by decide, by decide, by decide⟩

theorem sanitizeChars_valid (s : String) :
    ∀ d ∈ (sanitizeChars s).data, d.isAlphanum = true ∨ d = '_' := by
  intro d hd
  have : (sanitizeChars s).data = s.data.map sanitizeChar := rfl
  rw [this] at hd
  obtain ⟨c, _, hc⟩ := List.mem_map.mp hd
  subst hc
  unfold sanitizeChar
  split
  · rename_i h
    rcases h with h | h
    · exact Or.inl h
    · exact Or.inr h
  · exact Or.inr rfl

/-- C8: `sanitizeLabel` always returns a nonempty string starting with an ASCII letter whose remaining characters are alphanumeric or underscore, and a nonempty input whose sanitized form does not start with a letter receives the fixed `T_` marker in front rather than being rejected. -/
theorem sanitizeLabel_contract (s : String) :
    (∃ c cs, (sanitizeLabel s).data = c :: cs ∧ c.isAlpha = true
      ∧ ∀ d ∈ cs, d.isAlphanum = true ∨ d = '_')
  ∧ (s ≠ "" → headIsAlpha (sanitizeChars s) = false →
      sanitizeLabel s = "T_" ++ sanitizeChars s) := by
  constructor
  · by_cases hs : s = ""
    · subst hs
      refine ⟨'U', "nknown".data, by decide, by decide, by decide⟩
    · have hvalid := sanitizeChars_valid s
      unfold sanitizeLabel
      rw [if_neg hs]
      by_cases hh : headIsAlpha (sanitizeChars s) = true
      · rw [if_pos hh]
        unfold headIsAlpha at hh
        cases hts : (sanitizeChars s).data with
        | nil => rw [hts] at hh; simp at hh
        | cons c cs =>
          rw [hts] at hh
          refine ⟨c, cs, rfl, hh, ?_⟩
          intro d hd
          exact hvalid d (by rw [hts]; exact List.mem_cons_of_mem c hd)
      · rw [if_neg hh]
        refine ⟨'T', '_' :: (sanitizeChars s).data, ?_, by decide, ?_⟩
        · rw [String.data_append]
          rfl
        · intro d hd
          rcases List.mem_cons.mp hd with h | h
          · exact Or.inr h
          · exact hvalid d h
  · intro hs hh
    unfold sanitizeLabel
    rw [if_neg hs, if_neg (by rw [hh]; exact Bool.false_ne_true)]

theorem sanitizeLabel_contract_witness :
    sanitizeLabel "9abc-def" = "T_" ++ sanitizeChars "9abc-def" :=
  (sanitizeLabel_contract "9abc-def").2 (by decide) (by decide)

mutual

theorem convertVal_idem : ∀ v, convertNeo4jIntegers (convertNeo4jIntegers v) = convertNeo4jIntegers v
  | .neoInt _ => rfl
  | .num _ => rfl
  | .str _ => rfl
  | .boolean _ => rfl
  | .null => rfl
  | .arr xs => by
      rw [convertNeo4jIntegers, convertNeo4jIntegers, convertList_idem xs]
  | .obj fs => by
      rw [convertNeo4jIntegers, convertNeo4jIntegers, convertFields_idem fs]

theorem convertList_idem : ∀ xs, convertNeo4jList (convertNeo4jList xs) = convertNeo4jList xs
  | [] => rfl
  | v :: rest => by
      rw [convertNeo4jList, convertNeo4jList, convertVal_idem v, convertList_idem rest]

theorem convertFields_idem : ∀ fs, convertNeo4jFields (convertNeo4jFields fs) = convertNeo4jFields fs
  | [] => rfl
  | (k, v) :: rest => by
      rw [convertNeo4jFields, convertNeo4jFields, convertVal_idem v, convertFields_idem rest]

end

theorem convertList_length : ∀ xs : List JsonVal, (convertNeo4jList xs).length = xs.length
  | [] => rfl
  | _ :: rest => by rw [convertNeo4jList, List.length_cons, List.length_cons, convertList_length rest]

theorem convertFields_keys : ∀ fs : List (String × JsonVal),
    (convertNeo4jFields fs).map Prod.fst = fs.map Prod.fst
  | [] => rfl
  | (k, v) :: rest => by
      rw [convertNeo4jFields, List.map_cons, List.map_cons, convertFields_keys rest]

/-- C10: `convertNeo4jIntegers` is idempotent and structure-preserving: applying it twice equals applying it once, it maps arrays to arrays of the same length and objects to objects with the same keys, and it leaves every leaf that is not a Neo4j integer unchanged. -/
theorem convertNeo4jIntegers_spec :
    (∀ v, convertNeo4jIntegers (convertNeo4jIntegers v) = convertNeo4jIntegers v)
  ∧ (∀ xs, convertNeo4jIntegers (.arr xs) = .arr (convertNeo4jList xs)
        ∧ (convertNeo4jList xs).length = xs.length)
  ∧ (∀ fs, convertNeo4jIntegers (.obj fs) = .obj (convertNeo4jFields fs)
        ∧ (convertNeo4jFields fs).map Prod.fst = fs.map Prod.fst)
  ∧ (∀ v, (∀ n, v ≠ .neoInt n) → (∀ xs, v ≠ .arr xs) → (∀ fs, v ≠ .obj fs) →
        convertNeo4jIntegers v = v) := by
  refine ⟨convertVal_idem, fun xs => ⟨rfl, convertList_length xs⟩,
    fun fs => ⟨rfl, convertFields_keys fs⟩, ?_⟩
  intro v hni harr hobj
  cases v with
  | neoInt n => exact absurd rfl (hni n)
  | arr xs => exact absurd rfl (harr xs)
  | obj fs => exact absurd rfl (hobj fs)
  | num n => rfl
  | str s => rfl
  | boolean b => rfl
  | null => rfl

theorem convertNeo4jIntegers_spec_witness :
    convertNeo4jIntegers (.str "x") = .str "x" :=
  convertNeo4jIntegers_spec.2.2.2 (.str "x") (fun n => by simp) (fun xs => by simp)
    (fun fs => by simp)

theorem tcBumpEntityType_eq (t : String) : ∀ acc, tcBumpEntityType t acc = bumpEntityType t acc
  | [] => rfl
  | (k, n) :: rest => by
      rw [tcBumpEntityType, bumpEntityType, tcBumpEntityType_eq t rest]

theorem foldl_fn_congr {α β : Type} (l : List β) (f g : α → β → α) (a : α)
    (h : ∀ acc b, f acc b = g acc b) : l.foldl f a = l.foldl g a := by
  induction l generalizing a with
  | nil => rfl
  | cons x xs ih => rw [List.foldl_cons, List.foldl_cons, h, ih]

theorem tcCountEntityTypes_eq (es : List Entity) : tcCountEntityTypes es = countEntityTypes es := by
  unfold tcCountEntityTypes countEntityTypes
  apply foldl_fn_congr
  intro acc e
  cases e.entityType with
  | none => rfl
  | some t => by_cases ht : t = "" <;> simp [ht, tcBumpEntityType_eq]

theorem tcBumpConn_eq (fT tT : Option String) : ∀ cs, tcBumpConn fT tT cs = bumpConn fT tT cs
  | [] => rfl
  | c :: rest => by
      rw [tcBumpConn, bumpConn, tcBumpConn_eq fT tT rest]

theorem tcInsertConn_eq (t : String) (fT tT : Option String) :
    ∀ acc, tcInsertConn t fT tT acc = insertConn t fT tT acc
  | [] => rfl
  | (k, cs) :: rest => by
      rw [tcInsertConn, insertConn, tcInsertConn_eq t fT tT rest, tcBumpConn_eq]

theorem tcAddRelation_eq (es : List Entity) (acc : RelationTypes) (r : KGRelation) :
    tcAddRelation es acc r = addRelation es acc r := by
  unfold tcAddRelation addRelation
  by_cases ht : r.relationType = ""
  · simp [ht]
  · simp only [ht, if_false]
    cases es.find? (fun e => e.name == r.from_) <;>
      cases es.find? (fun e => e.name == r.to_) <;>
      simp [tcInsertConn_eq]

theorem tcExtractOntology_eq (g : KnowledgeGraph) : tcExtractOntology g = extractOntology g := by
  unfold tcExtractOntology extractOntology
  rw [tcCountEntityTypes_eq,
    foldl_fn_congr g.relations (tcAddRelation g.entities) (addRelation g.entities) []
      (tcAddRelation_eq g.entities)]

theorem tcBumpGroup_eq (c : Conn) : ∀ acc, tcBumpGroup c acc = bumpGroup c acc
  | [] => rfl
  | (k, g) :: rest => by
      rw [tcBumpGroup, bumpGroup, tcBumpGroup_eq c rest]

theorem tcGroupConns_eq (cs : List Conn) : tcGroupConns cs = groupConns cs := by
  unfold tcGroupConns groupConns
  exact foldl_fn_congr cs _ _ [] (fun acc c => tcBumpGroup_eq c acc)

theorem tcRelationGroupLines_eq (t : String) (cs : List Conn) :
    tcRelationGroupLines t cs = relationGroupLines t cs := by
  unfold tcRelationGroupLines relationGroupLines
  rw [tcGroupConns_eq]

/-- C9: the inline `get_ontology` branch of `handleToolCall` computes the same `entityTypes` and `relationTypes` records and the same formatted ontology string as the pair `extractOntology` and `formatOntology` of getOntology.ts, on every graph with entity and relation arrays. -/
theorem handleToolCall_get_ontology_refines (g : KnowledgeGraph) :
    tcExtractOntology g = extractOntology g
  ∧ tcOntologyText g = formatOntology (extractOntology g) := by
  refine ⟨tcExtractOntology_eq g, ?_⟩
  unfold tcOntologyText formatOntology
  rw [tcExtractOntology_eq]
  have hfun : (fun p : String × List Conn => tcRelationGroupLines p.1 p.2)
      = fun p : String × List Conn => relationGroupLines p.1 p.2 :=
    funext fun p => tcRelationGroupLines_eq p.1 p.2
  simp only [hfun]
  rfl

/-- C7 counterexample: in a batch of two entities lacking embeddings where the embedding call of the first fails, the second entity is not processed, refuting the claim that one item failing does not abort the rest of the batch. -/
theorem backfill_failure_aborts_rest :
    runBackfill (fun n => if n = "A" then Except.error "boom" else Except.ok [0])
      [⟨"A", false⟩, ⟨"B", false⟩] = ([], some "boom")
  ∧ "B" ∉ (runBackfill (fun n => if n = "A" then Except.error "boom" else Except.ok [0])
      [⟨"A", false⟩, ⟨"B", false⟩]).1 := by
  exact ⟨by decide, by decide⟩

/-- C7 (amended): the backfill loop is fail-fast anywhere in the batch: when an entity whose items before it were all skipped (embedding already present) or successfully embedded is itself pending and its embedding call fails, the run records exactly the pending entities of the prefix as updated (they keep their updates) and propagates the error, and its outcome is independent of everything after the failing entity — so no entity after the first failing item is ever processed. -/
theorem backfill_fail_fast (embed : String → Except String (List Int))
    (pre : List BatchEntity) (e : BatchEntity) (rest rest2 : List BatchEntity) (msg : String)
    (hpre : ∀ p ∈ pre, p.hasEmbedding = true ∨ ∃ v, embed p.name = Except.ok v)
    (he : e.hasEmbedding = false) (hf : embed e.name = .error msg) :
    runBackfill embed (pre ++ e :: rest)
      = ((pre.filter (fun p => p.hasEmbedding == false)).map BatchEntity.name, some msg)
  ∧ runBackfill embed (pre ++ e :: rest) = runBackfill embed (pre ++ e :: rest2) := by
  have main : ∀ (pr : List BatchEntity),
      (∀ p ∈ pr, p.hasEmbedding = true ∨ ∃ v, embed p.name = Except.ok v) →
      ∀ rs : List BatchEntity,
      runBackfill embed (pr ++ e :: rs)
        = ((pr.filter (fun p => p.hasEmbedding == false)).map BatchEntity.name, some msg) := by
    intro pr
    induction pr with
    | nil =>
      intro _ rs
      rw [List.nil_append, List.filter_nil, List.map_nil]
      unfold runBackfill
      rw [he]
      simp only [Bool.false_eq_true, if_false, hf]
    | cons p ps ih =>
      intro hpr rs
      rw [List.cons_append, List.filter_cons]
      cases hp : p.hasEmbedding with
      | true =>
        simp only [runBackfill, hp, if_true, hp, beq_self_eq_true]
        rw [show (true == false) = false from rfl]
        simp only [Bool.false_eq_true, if_false]
        exact ih (fun q hq => hpr q (List.mem_cons_of_mem p hq)) rs
      | false =>
        rcases hpr p (List.mem_cons_self p ps) with htrue | ⟨v, hok⟩
        · rw [hp] at htrue
          cases htrue
        · simp only [runBackfill, hp, Bool.false_eq_true, if_false, hok]
          rw [ih (fun q hq => hpr q (List.mem_cons_of_mem p hq)) rs,
            show (false == false) = true from rfl]
          simp only [if_true, List.map_cons]
  exact ⟨main pre hpre rest, (main pre hpre rest).trans (main pre hpre rest2).symm⟩

theorem backfill_fail_fast_witness :
    runBackfill (fun n => if n = "P" then Except.ok [1]
        else if n = "A" then Except.error "boom" else Except.ok [0])
      [⟨"P", false⟩, ⟨"S", true⟩, ⟨"A", false⟩, ⟨"B", false⟩] = (["P"], some "boom")
  ∧ runBackfill (fun n => if n = "P" then Except.ok [1]
        else if n = "A" then Except.error "boom" else Except.ok [0])
      [⟨"P", false⟩, ⟨"S", true⟩, ⟨"A", false⟩, ⟨"B", false⟩]
    = runBackfill (fun n => if n = "P" then Except.ok [1]
        else if n = "A" then Except.error "boom" else Except.ok [0])
      [⟨"P", false⟩, ⟨"S", true⟩, ⟨"A", false⟩] :=
  backfill_fail_fast _ [⟨"P", false⟩, ⟨"S", true⟩] ⟨"A", false⟩ [⟨"B", false⟩] [] "boom"
    (by
      intro p hp
      rcases List.mem_cons.mp hp with h | h
      · subst h
        exact Or.inr ⟨[1], rfl⟩
      · rcases List.mem_cons.mp h with h2 | h2
        · subst h2
          exact Or.inl rfl
        · cases h2)
    rfl rfl

/-- C6 counterexample: the backfill text builder renders an entity carrying metadata into a text that contains no trace of the metadata, refuting the claim that the rendered text includes the metadata so that it is searchable. -/
theorem buildEmbeddingText_ignores_metadata :
    buildEmbeddingText (fun _ => none) ⟨"A", "T", .arr [], [("note", "zq9secret")]⟩
      = "Name: A\nType: T\nObservations:\n  (No observations)"
  ∧ strOccurs "zq9secret" (buildEmbeddingText (fun _ => none)
      ⟨"A", "T", .arr [], [("note", "zq9secret")]⟩) = false := ⟨by decide, by decide⟩

/-- C6 (amended): the backfill text builder normalizes observations arriving as a JSON-encoded array string, a bare unparsable string, or a sequence into one canonical sequence, emits the literal `  (No observations)` marker when the sequence is empty, and renders only name, entityType and observations — the metadata field never influences the produced text. -/
theorem buildEmbeddingText_contract (parse : String → Option JsonVal) (n t : String)
    (obs : JsonVal) (md md' : List (String × String)) (s1 s2 : String) (xs : List JsonVal) :
    buildEmbeddingText parse ⟨n, t, obs, md⟩ = buildEmbeddingText parse ⟨n, t, obs, md'⟩
  ∧ (parse s1 = some (.arr xs) → normalizeObservations parse (.str s1) = xs)
  ∧ (parse s2 = none → normalizeObservations parse (.str s2) = [.str s2])
  ∧ normalizeObservations parse (.arr xs) = xs
  ∧ (normalizeObservations parse obs = [] →
      buildEmbeddingText parse ⟨n, t, obs, md⟩ =
        String.intercalate "\n" ["Name: " ++ n, "Type: " ++ t, "Observations:",
          "  (No observations)"]) := by
  refine ⟨rfl, ?_, ?_, rfl, ?_⟩
  · intro h
    simp only [normalizeObservations]
    rw [h]
  · intro h
    simp only [normalizeObservations]
    rw [h]
  · intro h
    unfold buildEmbeddingText
    simp only [h, List.length_nil, gt_iff_lt, lt_self_iff_false, if_false]
    rfl

theorem buildEmbeddingText_contract_witness :
    buildEmbeddingText (fun u => if u = "[]" then some (.arr []) else none)
        ⟨"A", "T", .arr [], [("k", "v")]⟩
      = String.intercalate "\n" ["Name: A", "Type: T", "Observations:",
          "  (No observations)"]
  ∧ normalizeObservations (fun u => if u = "[]" then some (.arr []) else none) (.str "[]") = []
  ∧ normalizeObservations (fun u => if u = "[]" then some (.arr []) else none) (.str "x")
      = [.str "x"] := by
  have h := buildEmbeddingText_contract (fun u => if u = "[]" then some (.arr []) else none)
    "A" "T" (.arr []) [("k", "v")] [("k2", "v2")] "[]" "x" []
  exact ⟨h.2.2.2.2 rfl, h.2.1 rfl, h.2.2.1 rfl⟩

/-- C4: evaluation of the code at the failing inputs. On a graph whose only entity record lacks `entityType`, `extractOntology` produces an empty `entityTypes` record: the record is skipped entirely and no `Unknown` bucket exists anywhere in the aggregation, where the spec (section 7) requires it to degrade into an `Unknown` bucket. Moreover a relation through such an entity is accumulated with an `undefined` endpoint type — the very value on which the group-sort comparator of `formatOntology` (getOntology.ts line 127) throws a TypeError, where the spec requires the composed computation never to raise a domain error. -/
theorem missing_entityType_not_bucketed :
    (extractOntology ⟨[⟨"A", none⟩], []⟩).entityTypes = []
  ∧ (extractOntology ⟨[⟨"A", none⟩], []⟩).relationTypes = []
  ∧ (extractOntology ⟨[⟨"A", none⟩, ⟨"B", some "T"⟩],
        [⟨"A", "B", "r"⟩]⟩).relationTypes
      = [("r", [⟨none, some "T", 1⟩])] := ⟨by decide, by decide, by decide⟩

theorem lookupET_bump (t u : String) : ∀ acc,
    lookupET t (bumpEntityType u acc)
      = if u = t then some ((lookupET t acc).getD 0 + 1) else lookupET t acc
  | [] => by
      by_cases h : u = t <;> simp [bumpEntityType, lookupET, h]
  | (k, n) :: rest => by
      unfold bumpEntityType
      by_cases hku : k = u
      · subst hku
        by_cases hkt : k = t <;> simp [lookupET, hkt]
      · rw [if_neg hku]
        by_cases hkt : k = t
        · subst hkt
          have hut : ¬ (u = k) := fun h => hku h.symm
          simp [lookupET, hut]
        · simp [lookupET, hkt, lookupET_bump t u rest]

theorem countEntityTypes_aux (t : String) (ht : t ≠ "") : ∀ (es : List Entity) (acc : EntityTypes),
    etCount t (es.foldl
      (fun acc e =>
        match e.entityType with
        | some u => if u = "" then acc else bumpEntityType u acc
        | none => acc) acc)
      = etCount t acc + (es.filter (fun e => e.entityType == some t)).length
  | [], acc => rfl
  | e :: rest, acc => by
      rw [List.foldl_cons]
      cases he : e.entityType with
      | none =>
        have : (e.entityType == some t) = false := by rw [he]; rfl
        rw [List.filter_cons, this]
        simp only [if_false, Bool.false_eq_true]
        exact countEntityTypes_aux t ht rest acc
      | some u =>
        dsimp only
        by_cases hu : u = ""
        · subst hu
          have : (e.entityType == some t) = false := by
            rw [he]
            simp [Ne.symm ht]
          rw [List.filter_cons, this]
          simp only [if_pos rfl, Bool.false_eq_true, if_false]
          exact countEntityTypes_aux t ht rest acc
        · rw [if_neg hu, List.filter_cons]
          rw [countEntityTypes_aux t ht rest (bumpEntityType u acc)]
          unfold etCount
          rw [lookupET_bump]
          by_cases hut : u = t
          · subst hut
            have : (e.entityType == some u) = true := by rw [he]; simp
            simp [this]
            omega
          · have : (e.entityType == some t) = false := by rw [he]; simp [hut]
            simp [this, hut]

theorem lookupET_empty_bump (u : String) (hu : u ≠ "") : ∀ acc : EntityTypes,
    lookupET "" (bumpEntityType u acc) = lookupET "" acc
  | [] => by simp [bumpEntityType, lookupET, hu]
  | (k, n) :: rest => by
      unfold bumpEntityType
      by_cases hku : k = u
      · subst hku
        simp [lookupET, hu]
      · rw [if_neg hku]
        by_cases hk : k = ""
        · simp [lookupET, hk]
        · simp [lookupET, hk, lookupET_empty_bump u hu rest]

theorem countEntityTypes_empty_aux : ∀ (es : List Entity) (acc : EntityTypes),
    lookupET "" acc = none →
    lookupET "" (es.foldl
      (fun acc e =>
        match e.entityType with
        | some u => if u = "" then acc else bumpEntityType u acc
        | none => acc) acc) = none
  | [], acc, h => h
  | e :: rest, acc, h => by
      rw [List.foldl_cons]
      cases he : e.entityType with
      | none => exact countEntityTypes_empty_aux rest acc h
      | some u =>
        dsimp only
        by_cases hu : u = ""
        · rw [if_pos hu]
          exact countEntityTypes_empty_aux rest acc h
        · rw [if_neg hu]
          exact countEntityTypes_empty_aux rest _ (by rw [lookupET_empty_bump u hu acc]; exact h)

theorem bumpEntityType_keys (u : String) : ∀ (acc : EntityTypes) (p : String × Nat),
    p ∈ bumpEntityType u acc → p.1 = u ∨ p.1 ∈ acc.map Prod.fst
  | [], p, hp => by
      unfold bumpEntityType at hp
      rcases List.mem_singleton.mp hp with h
      exact Or.inl (by rw [h])
  | (k, n) :: rest, p, hp => by
      unfold bumpEntityType at hp
      by_cases hku : k = u
      · rw [if_pos hku] at hp
        rcases List.mem_cons.mp hp with h | h
        · exact Or.inl (by rw [h, hku])
        · exact Or.inr (List.mem_map.mpr ⟨p, List.mem_cons_of_mem _ h, rfl⟩)
      · rw [if_neg hku] at hp
        rcases List.mem_cons.mp hp with h | h
        · subst h
          exact Or.inr (by simp)
        · rcases bumpEntityType_keys u rest p h with h1 | h1
          · exact Or.inl h1
          · exact Or.inr (by simp at h1 ⊢; tauto)

theorem countEntityTypes_keys_aux : ∀ (es : List Entity) (acc : EntityTypes)
    (P : String → Prop),
    (∀ p ∈ acc, P p.1) →
    (∀ e ∈ es, ∀ u, e.entityType = some u → u ≠ "" → P u) →
    ∀ p ∈ (es.foldl
      (fun acc e =>
        match e.entityType with
        | some u => if u = "" then acc else bumpEntityType u acc
        | none => acc) acc), P p.1
  | [], acc, P, hacc, _, p, hp => hacc p hp
  | e :: rest, acc, P, hacc, hes, p, hp => by
      rw [List.foldl_cons] at hp
      cases he : e.entityType with
      | none =>
        rw [he] at hp
        exact countEntityTypes_keys_aux rest acc P hacc
          (fun e' he' => hes e' (List.mem_cons_of_mem e he')) p hp
      | some u =>
        rw [he] at hp
        dsimp only at hp
        by_cases hu : u = ""
        · rw [if_pos hu] at hp
          exact countEntityTypes_keys_aux rest acc P hacc
            (fun e' he' => hes e' (List.mem_cons_of_mem e he')) p hp
        · rw [if_neg hu] at hp
          refine countEntityTypes_keys_aux rest (bumpEntityType u acc) P ?_
            (fun e' he' => hes e' (List.mem_cons_of_mem e he')) p hp
          intro q hq
          rcases bumpEntityType_keys u acc q hq with h | h
          · rw [h]
            exact hes e (List.mem_cons_self e rest) u he hu
          · rcases List.mem_map.mp h with ⟨q', hq', hfst⟩
            rw [← hfst]
            exact hacc q' hq'

/-- Characterization of the entity pass supporting the C4 finding: each `entityTypes` count equals the number of entities actually carrying that type, the empty string is never a key, and every key originates from an entity carrying it as `entityType` — so an entity missing its `entityType` contributes to no bucket at all. -/
theorem extractOntology_skips_untyped (g : KnowledgeGraph) (t : String) (ht : t ≠ "") :
    etCount t (extractOntology g).entityTypes
      = (g.entities.filter (fun e => e.entityType == some t)).length
  ∧ lookupET "" (extractOntology g).entityTypes = none
  ∧ ∀ p ∈ (extractOntology g).entityTypes,
      p.1 ≠ "" ∧ ∃ e ∈ g.entities, e.entityType = some p.1 := by
  refine ⟨?_, countEntityTypes_empty_aux g.entities [] rfl, ?_⟩
  · have h := countEntityTypes_aux t ht g.entities []
    simpa [etCount, lookupET] using h
  intro p hp
  exact countEntityTypes_keys_aux g.entities []
    (fun u => u ≠ "" ∧ ∃ e ∈ g.entities, e.entityType = some u)
    (by intro q hq; cases hq)
    (fun e he u hu hu' => ⟨hu', e, he, hu⟩) p hp

theorem extractOntology_skips_untyped_witness :
    etCount "Person" (extractOntology exampleGraph).entityTypes
      = (exampleGraph.entities.filter (fun e => e.entityType == some "Person")).length :=
  (extractOntology_skips_untyped exampleGraph "Person" (by decide)).1

theorem connMatch_iff (fT tT : Option String) (c : Conn) :
    connMatch fT tT c = true ↔ (c.from_ = fT ∧ c.to_ = tT) := by
  unfold connMatch
  simp

theorem sumConn_nil (fT tT : Option String) : sumConn fT tT [] = 0 := rfl

theorem sumConn_cons (fT tT : Option String) (c : Conn) (l : List Conn) :
    sumConn fT tT (c :: l)
      = (if connMatch fT tT c then c.count else 0) + sumConn fT tT l := by
  unfold sumConn
  rw [List.filter_cons]
  cases connMatch fT tT c <;> simp

theorem bumpConn_sum (fT tT fU tU : Option String) : ∀ cs : List Conn,
    sumConn fT tT (bumpConn fU tU cs)
      = sumConn fT tT cs + (if fU = fT ∧ tU = tT then 1 else 0)
  | [] => by
      rw [bumpConn, sumConn_cons]
      by_cases h : fU = fT ∧ tU = tT
      · simp [connMatch_iff, h, sumConn_nil]
      · simp [connMatch_iff, h, sumConn_nil]
  | c :: rest => by
      unfold bumpConn
      by_cases hc : c.from_ = fU ∧ c.to_ = tU
      · rw [if_pos hc, sumConn_cons, sumConn_cons]
        have hmm : connMatch fT tT (⟨c.from_, c.to_, c.count + 1⟩ : Conn) = connMatch fT tT c := by
          unfold connMatch
          rfl
        rw [hmm]
        by_cases h : fU = fT ∧ tU = tT
        · have hcm : connMatch fT tT c = true :=
            (connMatch_iff fT tT c).mpr ⟨hc.1.trans h.1, hc.2.trans h.2⟩
          rw [if_pos h, hcm]
          simp
          omega
        · have hcm : connMatch fT tT c = false := by
            rw [Bool.eq_false_iff]
            intro hb
            obtain ⟨h1, h2⟩ := (connMatch_iff fT tT c).mp hb
            exact h ⟨hc.1.symm.trans h1, hc.2.symm.trans h2⟩
          rw [if_neg h, hcm]
          simp
      · rw [if_neg hc, sumConn_cons, sumConn_cons, bumpConn_sum fT tT fU tU rest]
        omega

theorem lookupRT_insertConn (t u : String) (fT tT : Option String) : ∀ acc : RelationTypes,
    lookupRT t (insertConn u fT tT acc)
      = if u = t then some (bumpConn fT tT ((lookupRT t acc).getD [])) else lookupRT t acc
  | [] => by
      by_cases h : u = t <;> simp [insertConn, lookupRT, h, bumpConn]
  | (k, cs) :: rest => by
      unfold insertConn
      by_cases hku : k = u
      · subst hku
        by_cases hkt : k = t
        · subst hkt
          simp [lookupRT]
        · have : ¬ (k = t) := hkt
          simp [lookupRT, hkt]
      · rw [if_neg hku]
        by_cases hkt : k = t
        · subst hkt
          have hut : ¬ (u = k) := fun h => hku h.symm
          simp [lookupRT, hut]
        · simp only [lookupRT, hkt, if_false]
          exact lookupRT_insertConn t u fT tT rest

theorem connCount_insertConn (t u : String) (fT tT fU tU : Option String) (acc : RelationTypes) :
    connCount (insertConn u fU tU acc) t fT tT
      = connCount acc t fT tT + (if u = t ∧ fU = fT ∧ tU = tT then 1 else 0) := by
  unfold connCount
  rw [lookupRT_insertConn]
  by_cases hu : u = t
  · rw [if_pos hu]
    simp only [Option.getD_some]
    rw [bumpConn_sum]
    by_cases h : fU = fT ∧ tU = tT
    · simp [hu, h]
    · simp [hu, h]
  · rw [if_neg hu]
    simp [hu]

theorem resolveType_eq (es : List Entity) (n : String) :
    resolveType es n = (es.find? (fun e => e.name == n)).map Entity.entityType := rfl

theorem addRelation_connCount (es : List Entity) (t : String) (ht : t ≠ "")
    (fT tT : Option String) (acc : RelationTypes) (r : KGRelation) :
    connCount (addRelation es acc r) t fT tT
      = connCount acc t fT tT + (if relMatches es t fT tT r then 1 else 0) := by
  unfold addRelation relMatches
  by_cases hr : r.relationType = ""
  · rw [if_pos hr]
    have : (r.relationType == t) = false := by
      rw [hr]
      simp [Ne.symm ht]
    simp [this]
  · rw [if_neg hr]
    cases hf : es.find? (fun e => e.name == r.from_) with
    | none =>
      have : (resolveType es r.from_ == some fT) = false := by
        rw [resolveType_eq, hf]
        simp
      simp [this]
    | some fe =>
      cases hg : es.find? (fun e => e.name == r.to_) with
      | none =>
        have : (resolveType es r.to_ == some tT) = false := by
          rw [resolveType_eq, hg]
          simp
        simp [this]
      | some te =>
        rw [connCount_insertConn]
        have h1 : (resolveType es r.from_ == some fT) = decide (fe.entityType = fT) := by
          rw [resolveType_eq, hf]
          by_cases hx : fe.entityType = fT <;> simp [hx]
        have h2 : (resolveType es r.to_ == some tT) = decide (te.entityType = tT) := by
          rw [resolveType_eq, hg]
          by_cases hx : te.entityType = tT <;> simp [hx]
        rw [h1, h2]
        by_cases hc : r.relationType = t ∧ fe.entityType = fT ∧ te.entityType = tT
        · obtain ⟨c1, c2, c3⟩ := hc
          simp [c1, c2, c3]
        · rw [if_neg hc]
          have : (r.relationType == t && decide (fe.entityType = fT)
              && decide (te.entityType = tT)) = false := by
            rcases not_and_or.mp hc with h | h
            · simp [h]
            · rcases not_and_or.mp h with h' | h' <;> simp [h']
          rw [this]
          simp

theorem foldl_connCount (es : List Entity) (t : String) (ht : t ≠ "")
    (fT tT : Option String) : ∀ (rs : List KGRelation) (acc : RelationTypes),
    connCount (rs.foldl (addRelation es) acc) t fT tT
      = connCount acc t fT tT + (rs.filter (relMatches es t fT tT)).length
  | [], acc => rfl
  | r :: rest, acc => by
      rw [List.foldl_cons, List.filter_cons,
        foldl_connCount es t ht fT tT rest (addRelation es acc r),
        addRelation_connCount es t ht fT tT acc r]
      cases relMatches es t fT tT r
      · simp
      · simp
        omega

theorem lookupRT_empty_insertConn (u : String) (hu : u ≠ "") (fT tT : Option String)
    (acc : RelationTypes) :
    lookupRT "" (insertConn u fT tT acc) = lookupRT "" acc := by
  rw [lookupRT_insertConn]
  simp [hu]

theorem foldl_lookupRT_empty (es : List Entity) : ∀ (rs : List KGRelation) (acc : RelationTypes),
    lookupRT "" acc = none →
    lookupRT "" (rs.foldl (addRelation es) acc) = none
  | [], _, h => h
  | r :: rest, acc, h => by
      rw [List.foldl_cons]
      refine foldl_lookupRT_empty es rest (addRelation es acc r) ?_
      unfold addRelation
      by_cases hr : r.relationType = ""
      · rw [if_pos hr]
        exact h
      · rw [if_neg hr]
        cases es.find? (fun e => e.name == r.from_) with
        | none => exact h
        | some fe =>
          cases es.find? (fun e => e.name == r.to_) with
          | none => exact h
          | some te => rw [lookupRT_empty_insertConn r.relationType hr _ _ acc]; exact h

theorem bumpConn_mem (fU tU : Option String) : ∀ (cs : List Conn) (b : Conn),
    b ∈ bumpConn fU tU cs →
    (∃ c ∈ cs, b.from_ = c.from_ ∧ b.to_ = c.to_) ∨ (b.from_ = fU ∧ b.to_ = tU)
  | [], b, hb => by
      rw [bumpConn] at hb
      rcases List.mem_singleton.mp hb with h
      exact Or.inr (by rw [h]; exact ⟨rfl, rfl⟩)
  | c :: rest, b, hb => by
      rw [bumpConn] at hb
      by_cases hc : c.from_ = fU ∧ c.to_ = tU
      · rw [if_pos hc] at hb
        rcases List.mem_cons.mp hb with h | h
        · exact Or.inl ⟨c, List.mem_cons_self c rest, by rw [h]; exact ⟨rfl, rfl⟩⟩
        · exact Or.inl ⟨b, List.mem_cons_of_mem c h, rfl, rfl⟩
      · rw [if_neg hc] at hb
        rcases List.mem_cons.mp hb with h | h
        · exact Or.inl ⟨c, List.mem_cons_self c rest, by rw [h]; exact ⟨rfl, rfl⟩⟩
        · rcases bumpConn_mem fU tU rest b h with ⟨c', hc', h1, h2⟩ | h1
          · exact Or.inl ⟨c', List.mem_cons_of_mem c hc', h1, h2⟩
          · exact Or.inr h1

theorem bumpConn_pairwise (fU tU : Option String) : ∀ cs : List Conn,
    cs.Pairwise distinctPair → (bumpConn fU tU cs).Pairwise distinctPair
  | [], _ => by
      rw [bumpConn]
      exact List.pairwise_singleton distinctPair _
  | c :: rest, h => by
      rw [bumpConn]
      obtain ⟨hc_rest, hrest⟩ := List.pairwise_cons.mp h
      by_cases hc : c.from_ = fU ∧ c.to_ = tU
      · rw [if_pos hc]
        refine List.pairwise_cons.mpr ⟨?_, hrest⟩
        intro b hb
        exact hc_rest b hb
      · rw [if_neg hc]
        refine List.pairwise_cons.mpr ⟨?_, bumpConn_pairwise fU tU rest hrest⟩
        intro b hb
        rcases bumpConn_mem fU tU rest b hb with ⟨c', hc', h1, h2⟩ | h1
        · intro hcon
          exact hc_rest c' hc' ⟨hcon.1.trans h1, hcon.2.trans h2⟩
        · intro hcon
          exact hc ⟨hcon.1.trans h1.1, hcon.2.trans h1.2⟩

theorem rtGood_insertConn (u : String) (fU tU : Option String) (acc : RelationTypes)
    (h : rtGood acc) : rtGood (insertConn u fU tU acc) := by
  intro v cs hv
  rw [lookupRT_insertConn] at hv
  by_cases huv : u = v
  · rw [if_pos huv] at hv
    cases hl : lookupRT v acc with
    | none =>
      rw [hl] at hv
      simp only [Option.getD_none] at hv
      rcases Option.some.injEq _ _ ▸ hv with h'
      have := Option.some.inj hv
      rw [← this]
      exact bumpConn_pairwise fU tU [] List.Pairwise.nil
    | some cs0 =>
      rw [hl] at hv
      simp only [Option.getD_some] at hv
      have := Option.some.inj hv
      rw [← this]
      exact bumpConn_pairwise fU tU cs0 (h v cs0 hl)
  · rw [if_neg huv] at hv
    exact h v cs hv

theorem rtGood_addRelation (es : List Entity) (acc : RelationTypes) (r : KGRelation)
    (h : rtGood acc) : rtGood (addRelation es acc r) := by
  unfold addRelation
  by_cases hr : r.relationType = ""
  · rw [if_pos hr]
    exact h
  · rw [if_neg hr]
    cases es.find? (fun e => e.name == r.from_) with
    | none => exact h
    | some fe =>
      cases es.find? (fun e => e.name == r.to_) with
      | none => exact h
      | some te => exact rtGood_insertConn r.relationType fe.entityType te.entityType acc h

theorem rtGood_foldl (es : List Entity) : ∀ (rs : List KGRelation) (acc : RelationTypes),
    rtGood acc → rtGood (rs.foldl (addRelation es) acc)
  | [], _, h => h
  | r :: rest, acc, h => by
      rw [List.foldl_cons]
      exact rtGood_foldl es rest (addRelation es acc r) (rtGood_addRelation es acc r h)

/-- C1: the relation pass of `extractOntology` skips a relation whose `relationType` is empty or whose endpoints do not resolve in `graph.entities`, and accumulates every other relation into `relationTypes` keyed by relation type; for each nonempty key and each `(fromType, toType)` pair the accumulated count equals the number of contributing relations (a repeated pair is merged by summing rather than appended), the empty relation type is never a key, and no connection list holds two entries with the same `(fromType, toType)` pair. -/
theorem extractOntology_relation_pass (g : KnowledgeGraph) (t : String) (ht : t ≠ "")
    (fT tT : Option String) :
    connCount (extractOntology g).relationTypes t fT tT
      = (g.relations.filter (relMatches g.entities t fT tT)).length
  ∧ lookupRT "" (extractOntology g).relationTypes = none
  ∧ ∀ cs, lookupRT t (extractOntology g).relationTypes = some cs →
      cs.Pairwise distinctPair := by
  refine ⟨?_, foldl_lookupRT_empty g.entities g.relations [] rfl, ?_⟩
  · have h := foldl_connCount g.entities t ht fT tT g.relations []
    simpa [connCount, lookupRT, sumConn] using h
  · intro cs hcs
    exact rtGood_foldl g.entities g.relations [] (fun u cs' h' => by cases h') t cs hcs

theorem extractOntology_relation_pass_witness :
    connCount (extractOntology exampleGraph).relationTypes "isMemberOf"
        (some "Person") (some "Team")
      = (exampleGraph.relations.filter
          (relMatches exampleGraph.entities "isMemberOf" (some "Person") (some "Team"))).length :=
  (extractOntology_relation_pass exampleGraph "isMemberOf" (by decide)
    (some "Person") (some "Team")).1

/-- C5 counterexample: with stored value 0 (inside the unit interval), half-life 1 and floor 1, the decay value strictly increases between elapsed times 0 and 1, refuting monotone non-increase for arbitrary floors. -/
theorem effective_not_monotone_when_floor_above :
    ¬ (effective 0 0 1 1 ≥ effective 0 1 1 1) := by
  unfold effective
  rw [show (-(0 / 1) : ℝ) = 0 by norm_num, Real.rpow_zero,
    show (-(1 / 1) : ℝ) = ((-1 : ℤ) : ℝ) by norm_num, Real.rpow_intCast]
  norm_num

/-- C5 (amended): for a floor `f` with `0 ≤ f ≤ stored ≤ 1` and a positive half-life, the decay law is monotone non-increasing in elapsed time, keeps its value inside the unit interval, and is the identity at elapsed time 0. -/
theorem effective_decay_contract (s f h t1 t2 : ℝ)
    (_hs0 : 0 ≤ s) (hs1 : s ≤ 1) (hf0 : 0 ≤ f) (hfs : f ≤ s)
    (hh : 0 < h) (ht1 : 0 ≤ t1) (ht12 : t1 < t2) :
    effective s t2 h f ≤ effective s t1 h f
  ∧ 0 ≤ effective s t1 h f
  ∧ effective s t1 h f ≤ 1
  ∧ effective s 0 h f = s := by
  have hsf : (0 : ℝ) ≤ s - f := sub_nonneg.mpr hfs
  have hx1pos : (0 : ℝ) < (2 : ℝ) ^ (-(t1 / h)) :=
    Real.rpow_pos_of_pos (by norm_num) _
  have hx1le1 : (2 : ℝ) ^ (-(t1 / h)) ≤ 1 :=
    Real.rpow_le_one_of_one_le_of_nonpos (by norm_num)
      (neg_nonpos.mpr (div_nonneg ht1 (le_of_lt hh)))
  refine ⟨?_, ?_, ?_, ?_⟩
  · unfold effective
    have hexp : -(t2 / h) ≤ -(t1 / h) :=
      neg_le_neg (by gcongr)
    have := Real.rpow_le_rpow_of_exponent_le (by norm_num : (1:ℝ) ≤ 2) hexp
    exact add_le_add_left (mul_le_mul_of_nonneg_left this hsf) f
  · unfold effective
    exact add_nonneg hf0 (mul_nonneg hsf (le_of_lt hx1pos))
  · unfold effective
    calc f + (s - f) * (2 : ℝ) ^ (-(t1 / h))
        ≤ f + (s - f) * 1 := add_le_add_left (mul_le_mul_of_nonneg_left hx1le1 hsf) f
      _ = s := by ring
      _ ≤ 1 := hs1
  · unfold effective
    rw [zero_div, neg_zero, Real.rpow_zero, mul_one]
    ring

theorem effective_decay_contract_witness :
    effective 1 1 1 0 ≤ effective 1 0 1 0
  ∧ 0 ≤ effective 1 0 1 0
  ∧ effective 1 0 1 0 ≤ 1
  ∧ effective 1 0 1 0 = 1 :=
  effective_decay_contract 1 0 1 0 1 (by norm_num) (by norm_num) (by norm_num)
    (by norm_num) (by norm_num) (by norm_num) (by norm_num)

theorem lexLe_total : ∀ as bs : List Char, lexLe as bs = true ∨ lexLe bs as = true
  | [], _ => Or.inl rfl
  | _ :: _, [] => Or.inr rfl
  | a :: as, b :: bs => by
      by_cases hab : a = b
      · subst hab
        rcases lexLe_total as bs with h | h
        · exact Or.inl (by rw [lexLe, if_pos rfl]; exact h)
        · exact Or.inr (by rw [lexLe, if_pos rfl]; exact h)
      · rcases lt_or_gt_of_ne hab with hlt | hgt
        · exact Or.inl (by rw [lexLe, if_neg hab]; exact decide_eq_true hlt)
        · refine Or.inr (by rw [lexLe, if_neg (Ne.symm hab)]; exact decide_eq_true hgt)

theorem lexLe_trans : ∀ as bs cs : List Char,
    lexLe as bs = true → lexLe bs cs = true → lexLe as cs = true
  | [], _, _, _, _ => rfl
  | a :: as, [], cs, h1, _ => by simp [lexLe] at h1
  | a :: as, b :: bs, [], _, h2 => by simp [lexLe] at h2
  | a :: as, b :: bs, c :: cs, h1, h2 => by
      rw [lexLe] at h1 h2 ⊢
      by_cases hab : a = b
      · subst hab
        rw [if_pos rfl] at h1
        by_cases hac : a = c
        · subst hac
          rw [if_pos rfl] at h2 ⊢
          exact lexLe_trans as bs cs h1 h2
        · rw [if_neg hac] at h2 ⊢
          exact h2
      · rw [if_neg hab] at h1
        have hlt1 : a < b := of_decide_eq_true h1
        by_cases hbc : b = c
        · subst hbc
          rw [if_neg hab]
          exact decide_eq_true hlt1
        · have hlt2 : b < c := of_decide_eq_true (by rw [if_neg hbc] at h2; exact h2)
          have hac : a < c := lt_trans hlt1 hlt2
          rw [if_neg (ne_of_lt hac)]
          exact decide_eq_true hac

theorem lexLe_antisymm : ∀ as bs : List Char,
    lexLe as bs = true → lexLe bs as = true → as = bs
  | [], [], _, _ => rfl
  | [], _ :: _, _, h2 => by simp [lexLe] at h2
  | _ :: _, [], h1, _ => by simp [lexLe] at h1
  | a :: as, b :: bs, h1, h2 => by
      rw [lexLe] at h1 h2
      by_cases hab : a = b
      · subst hab
        rw [if_pos rfl] at h1 h2
        rw [lexLe_antisymm as bs h1 h2]
      · rw [if_neg hab] at h1
        rw [if_neg (Ne.symm hab)] at h2
        have hlt1 : a < b := of_decide_eq_true h1
        have hlt2 : b < a := of_decide_eq_true h2
        exact absurd hlt2 (not_lt_of_gt hlt1)

theorem strLe_total (a b : String) : strLe a b = true ∨ strLe b a = true :=
  lexLe_total a.data b.data

theorem strLe_trans (a b c : String) :
    strLe a b = true → strLe b c = true → strLe a c = true :=
  lexLe_trans a.data b.data c.data

theorem strLe_antisymm (a b : String) :
    strLe a b = true → strLe b a = true → a = b := by
  intro h1 h2
  have h := lexLe_antisymm a.data b.data h1 h2
  cases a with
  | mk da =>
    cases b with
    | mk db => exact congrArg String.mk h

theorem insertBy_perm (le : α → α → Bool) (x : α) : ∀ l : List α,
    (insertBy le x l).Perm (x :: l)
  | [] => List.Perm.refl _
  | y :: ys => by
      rw [insertBy]
      by_cases h : le x y
      · rw [if_pos h]
      · rw [if_neg h]
        exact ((insertBy_perm le x ys).cons y).trans (List.Perm.swap x y ys)

theorem sortBy_perm (le : α → α → Bool) : ∀ l : List α, (sortBy le l).Perm l
  | [] => List.Perm.refl _
  | x :: xs => by
      rw [sortBy]
      exact (insertBy_perm le x (sortBy le xs)).trans ((sortBy_perm le xs).cons x)

theorem insertBy_pairwise (le : α → α → Bool)
    (htot : ∀ a b, le a b = true ∨ le b a = true)
    (htrans : ∀ a b c, le a b = true → le b c = true → le a c = true)
    (x : α) : ∀ l : List α,
    l.Pairwise (fun a b => le a b = true) →
    (insertBy le x l).Pairwise (fun a b => le a b = true)
  | [], _ => List.pairwise_singleton _ x
  | y :: ys, h => by
      obtain ⟨hy, hys⟩ := List.pairwise_cons.mp h
      rw [insertBy]
      by_cases hxy : le x y
      · rw [if_pos hxy]
        refine List.pairwise_cons.mpr ⟨?_, h⟩
        intro b hb
        rcases List.mem_cons.mp hb with hb | hb
        · rw [hb]
          exact hxy
        · exact htrans x y b hxy (hy b hb)
      · rw [if_neg hxy]
        refine List.pairwise_cons.mpr ⟨?_, insertBy_pairwise le htot htrans x ys hys⟩
        intro b hb
        rcases List.mem_cons.mp ((insertBy_perm le x ys).mem_iff.mp hb) with hb | hb
        · rw [hb]
          rcases htot x y with hd | hd
          · exact absurd hd hxy
          · exact hd
        · exact hy b hb

theorem sortBy_pairwise (le : α → α → Bool)
    (htot : ∀ a b, le a b = true ∨ le b a = true)
    (htrans : ∀ a b c, le a b = true → le b c = true → le a c = true) :
    ∀ l : List α, (sortBy le l).Pairwise (fun a b => le a b = true)
  | [] => List.Pairwise.nil
  | x :: xs => by
      rw [sortBy]
      exact insertBy_pairwise le htot htrans x (sortBy le xs)
        (sortBy_pairwise le htot htrans xs)

theorem connLe_total (a b : Conn) : connLe a b = true ∨ connLe b a = true := by
  unfold connLe
  by_cases h : jsShow a.from_ = jsShow b.from_
  · rw [if_pos h, if_pos h.symm]
    exact strLe_total _ _
  · rw [if_neg h, if_neg (Ne.symm h)]
    exact strLe_total _ _

theorem connLe_trans (a b c : Conn) :
    connLe a b = true → connLe b c = true → connLe a c = true := by
  unfold connLe
  intro h1 h2
  by_cases hab : jsShow a.from_ = jsShow b.from_
  · rw [if_pos hab] at h1
    by_cases hbc : jsShow b.from_ = jsShow c.from_
    · rw [if_pos hbc] at h2
      rw [if_pos (hab.trans hbc)]
      exact strLe_trans _ _ _ h1 h2
    · rw [if_neg hbc] at h2
      rw [hab, if_neg hbc]
      exact h2
  · rw [if_neg hab] at h1
    by_cases hbc : jsShow b.from_ = jsShow c.from_
    · rw [if_neg (fun hac => hab (hac.trans hbc.symm))]
      rw [← hbc]
      exact h1
    · rw [if_neg hbc] at h2
      by_cases hac : jsShow a.from_ = jsShow c.from_
      · exfalso
        rw [← hac] at h2
        exact hab (strLe_antisymm _ _ h1 h2)
      · rw [if_neg hac]
        exact strLe_trans _ _ _ h1 h2

theorem splitOnNl_line : ∀ (xs ys : List Char), (∀ c ∈ xs, c ≠ '\n') →
    splitOnNl (xs ++ '\n' :: ys) = xs :: splitOnNl ys
  | [], ys, _ => by
      rw [List.nil_append, splitOnNl, if_pos rfl]
  | c :: xs, ys, h => by
      rw [List.cons_append, splitOnNl,
        if_neg (h c (List.mem_cons_self c xs)),
        splitOnNl_line xs ys (fun d hd => h d (List.mem_cons_of_mem c hd))]

theorem splitOnNl_linesData : ∀ (ls : List (List Char)) (rest : List Char),
    (∀ l ∈ ls, ∀ c ∈ l, c ≠ '\n') →
    splitOnNl (linesData ls ++ rest) = ls ++ splitOnNl rest
  | [], rest, _ => rfl
  | l :: ls, rest, h => by
      rw [linesData, List.append_assoc, List.cons_append,
        splitOnNl_line l (linesData ls ++ rest) (h l (List.mem_cons_self l ls)),
        splitOnNl_linesData ls rest (fun m hm => h m (List.mem_cons_of_mem l hm)),
        List.cons_append]

theorem join_foldl_data : ∀ (l : List String) (a : String),
    (l.foldl (· ++ ·) a).data = a.data ++ (l.map String.data).flatten
  | [], a => by simp
  | s :: rest, a => by
      rw [List.foldl_cons, join_foldl_data rest (a ++ s), String.data_append]
      simp

theorem join_data (l : List String) : (String.join l).data = (l.map String.data).flatten := by
  have h := join_foldl_data l ""
  unfold String.join
  rw [h]
  rfl

theorem toDigitsCore_ne_nl : ∀ (fuel n : Nat) (acc : List Char),
    (∀ c ∈ acc, c ≠ '\n') → ∀ c ∈ Nat.toDigitsCore 10 fuel n acc, c ≠ '\n'
  | 0, _, acc, h => h
  | fuel + 1, n, acc, h => by
      rw [Nat.toDigitsCore]
      have hd : Nat.digitChar (n % 10) ≠ '\n' :=
        (by decide : ∀ m, m < 10 → Nat.digitChar m ≠ '\n') (n % 10)
          (Nat.mod_lt n (by norm_num))
      by_cases hz : n / 10 = 0
      · rw [if_pos hz]
        intro c hc
        rcases List.mem_cons.mp hc with hc | hc
        · rw [hc]; exact hd
        · exact h c hc
      · rw [if_neg hz]
        refine toDigitsCore_ne_nl fuel (n / 10) _ ?_
        intro c hc
        rcases List.mem_cons.mp hc with hc | hc
        · rw [hc]; exact hd
        · exact h c hc

theorem natToString_ne_nl (n : Nat) : ∀ c ∈ (toString n).data, c ≠ '\n' := by
  have h : (toString n).data = Nat.toDigitsCore 10 (n + 1) n [] := rfl
  rw [h]
  exact toDigitsCore_ne_nl (n + 1) n [] (by intro c hc; cases hc)

theorem nlFree_iff (s : String) : nlFree s = true ↔ ∀ c ∈ s.data, c ≠ '\n' := by
  unfold nlFree
  rw [List.all_eq_true]
  constructor
  · intro h c hc
    exact bne_iff_ne.mp (h c hc)
  · intro h c hc
    exact bne_iff_ne.mpr (h c hc)

theorem entityLine_data (p : String × Nat) :
    (entityLine p).data = (eLineText p).data ++ ['\n'] := by
  unfold entityLine eLineText
  simp only [String.data_append]
  simp [List.append_assoc]

theorem connLine_data (t : String) (c : Conn) :
    (connLine t c).data = (cLineText t c).data ++ ['\n'] := by
  unfold connLine cLineText
  simp only [String.data_append]
  simp [List.append_assoc]

theorem nlFree_append (a b : String) : nlFree (a ++ b) = (nlFree a && nlFree b) := by
  unfold nlFree
  rw [String.data_append, List.all_append]

theorem eLineText_nlFree (p : String × Nat) (hp : nlFree p.1 = true) :
    nlFree (eLineText p) = true := by
  have hts : nlFree (toString p.2) = true := (nlFree_iff _).mpr (natToString_ne_nl p.2)
  unfold eLineText
  simp only [nlFree_append, Bool.and_eq_true]
  simp only [hp, hts, and_true, true_and]
  decide

theorem cLineText_nlFree (t : String) (c : Conn) (ht : nlFree t = true)
    (hf : nlFree (jsShow c.from_) = true) (hto : nlFree (jsShow c.to_) = true) :
    nlFree (cLineText t c) = true := by
  have hts : nlFree (toString c.count) = true := (nlFree_iff _).mpr (natToString_ne_nl c.count)
  unfold cLineText
  simp only [nlFree_append, Bool.and_eq_true]
  simp only [ht, hf, hto, hts, and_true, true_and]
  decide

theorem data_ne_nil_ne_empty (s : String) (h : s.data ≠ []) : s ≠ "" := by
  intro he
  rw [he] at h
  exact h rfl

theorem eLineText_ne_empty (p : String × Nat) : eLineText p ≠ "" := by
  refine data_ne_nil_ne_empty _ ?_
  unfold eLineText
  simp [String.data_append]

theorem cLineText_ne_empty (t : String) (c : Conn) : cLineText t c ≠ "" := by
  refine data_ne_nil_ne_empty _ ?_
  unfold cLineText
  simp [String.data_append]

theorem linesData_append : ∀ xs ys : List (List Char),
    linesData (xs ++ ys) = linesData xs ++ linesData ys
  | [], _ => rfl
  | l :: ls, ys => by
      rw [List.cons_append, linesData, linesData, linesData_append ls ys,
        List.append_assoc]
      rfl

theorem flatten_linesData : ∀ ls : List (List Char),
    (ls.map (fun l => l ++ ['\n'])).flatten = linesData ls
  | [] => rfl
  | l :: ls => by
      rw [List.map_cons, List.flatten_cons, flatten_linesData ls, linesData,
        List.append_assoc]
      rfl

theorem entityBlock_data (es : EntityTypes) :
    (entityBlock es).data = linesData ((entityLineTexts es).map String.data) := by
  unfold entityBlock entityLineTexts
  rw [join_data, List.map_map, List.map_map, ← flatten_linesData, List.map_map]
  congr 1
  apply List.map_congr_left
  intro p _
  simp only [Function.comp_apply]
  exact entityLine_data p

theorem relationGroupLines_data (t : String) (cs : List Conn) :
    (relationGroupLines t cs).data
      = linesData (((sortBy connLe ((groupConns cs).map Prod.snd)).map
          (cLineText t)).map String.data) := by
  unfold relationGroupLines
  rw [join_data, List.map_map, List.map_map, ← flatten_linesData, List.map_map]
  congr 1
  apply List.map_congr_left
  intro c _
  simp only [Function.comp_apply]
  exact connLine_data t c

theorem relationBlock_data (rs : RelationTypes) :
    (relationBlock rs).data = linesData ((relLineTexts rs).map String.data) := by
  unfold relationBlock relLineTexts
  rw [join_data]
  induction sortBy (fun a b : String × List Conn => strLe a.1 b.1) rs with
  | nil => rfl
  | cons p ps ih =>
    rw [List.map_cons, List.map_cons, List.flatten_cons, List.map_cons,
      List.flatten_cons, List.map_append, linesData_append, ← ih,
      relationGroupLines_data p.1 p.2, List.map_map]

theorem bumpGroup_mem (c : Conn) : ∀ (acc : List (String × Conn)) (p : String × Conn),
    p ∈ bumpGroup c acc →
    (∃ q ∈ acc, p.2.from_ = q.2.from_ ∧ p.2.to_ = q.2.to_)
    ∨ (p.2.from_ = c.from_ ∧ p.2.to_ = c.to_)
  | [], p, hp => by
      rw [bumpGroup] at hp
      rcases List.mem_singleton.mp hp with h
      exact Or.inr (by rw [h]; exact ⟨rfl, rfl⟩)
  | (k, g) :: rest, p, hp => by
      rw [bumpGroup] at hp
      by_cases hk : k = connKey c
      · rw [if_pos hk] at hp
        rcases List.mem_cons.mp hp with h | h
        · exact Or.inl ⟨(k, g), List.mem_cons_self _ rest, by rw [h]; exact ⟨rfl, rfl⟩⟩
        · exact Or.inl ⟨p, List.mem_cons_of_mem _ h, rfl, rfl⟩
      · rw [if_neg hk] at hp
        rcases List.mem_cons.mp hp with h | h
        · exact Or.inl ⟨(k, g), List.mem_cons_self _ rest, by rw [h]; exact ⟨rfl, rfl⟩⟩
        · rcases bumpGroup_mem c rest p h with ⟨q, hq, h1, h2⟩ | h1
          · exact Or.inl ⟨q, List.mem_cons_of_mem _ hq, h1, h2⟩
          · exact Or.inr h1

theorem groupConns_nlFree (cs : List Conn)
    (hcs : ∀ c ∈ cs, nlFree (jsShow c.from_) = true ∧ nlFree (jsShow c.to_) = true) :
    ∀ b ∈ (groupConns cs).map Prod.snd,
      nlFree (jsShow b.from_) = true ∧ nlFree (jsShow b.to_) = true := by
  unfold groupConns
  suffices h : ∀ (cs' : List Conn) (acc : List (String × Conn)),
      (∀ q ∈ acc, nlFree (jsShow q.2.from_) = true ∧ nlFree (jsShow q.2.to_) = true) →
      (∀ c ∈ cs', nlFree (jsShow c.from_) = true ∧ nlFree (jsShow c.to_) = true) →
      ∀ q ∈ cs'.foldl (fun acc c => bumpGroup c acc) acc,
        nlFree (jsShow q.2.from_) = true ∧ nlFree (jsShow q.2.to_) = true by
    intro b hb
    rcases List.mem_map.mp hb with ⟨q, hq, hsnd⟩
    rw [← hsnd]
    exact h cs [] (fun q hq' => by cases hq') hcs q hq
  intro cs'
  induction cs' with
  | nil => intro acc hacc _ q hq; exact hacc q hq
  | cons c rest ih =>
    intro acc hacc hcs' q hq
    rw [List.foldl_cons] at hq
    refine ih (bumpGroup c acc) ?_ (fun d hd => hcs' d (List.mem_cons_of_mem c hd)) q hq
    intro r hr
    rcases bumpGroup_mem c acc r hr with ⟨s, hs, h1, h2⟩ | h1
    · rw [h1, h2]
      exact hacc s hs
    · rw [h1.1, h1.2]
      exact hcs' c (List.mem_cons_self c rest)

theorem groupConns_defined (cs : List Conn)
    (hcs : ∀ c ∈ cs, c.from_ ≠ none ∧ c.to_ ≠ none) :
    ∀ b ∈ (groupConns cs).map Prod.snd, b.from_ ≠ none ∧ b.to_ ≠ none := by
  unfold groupConns
  suffices h : ∀ (cs' : List Conn) (acc : List (String × Conn)),
      (∀ q ∈ acc, q.2.from_ ≠ none ∧ q.2.to_ ≠ none) →
      (∀ c ∈ cs', c.from_ ≠ none ∧ c.to_ ≠ none) →
      ∀ q ∈ cs'.foldl (fun acc c => bumpGroup c acc) acc,
        q.2.from_ ≠ none ∧ q.2.to_ ≠ none by
    intro b hb
    rcases List.mem_map.mp hb with ⟨q, hq, hsnd⟩
    rw [← hsnd]
    exact h cs [] (fun q hq' => by cases hq') hcs q hq
  intro cs'
  induction cs' with
  | nil => intro acc hacc _ q hq; exact hacc q hq
  | cons c rest ih =>
    intro acc hacc hcs' q hq
    rw [List.foldl_cons] at hq
    refine ih (bumpGroup c acc) ?_ (fun d hd => hcs' d (List.mem_cons_of_mem c hd)) q hq
    intro r hr
    rcases bumpGroup_mem c acc r hr with ⟨s, hs, h1, h2⟩ | h1
    · rw [h1, h2]
      exact hacc s hs
    · rw [h1.1, h1.2]
      exact hcs' c (List.mem_cons_self c rest)

theorem mk_data (s : String) : String.mk s.data = s := rfl

theorem entityLineTexts_nlFree (es : EntityTypes) (hE : ∀ p ∈ es, nlFree p.1 = true) :
    ∀ l ∈ entityLineTexts es, nlFree l = true := by
  intro l hl
  rcases List.mem_map.mp hl with ⟨p, hp, rfl⟩
  exact eLineText_nlFree p (hE p ((sortBy_perm _ es).mem_iff.mp hp))

theorem relLineTexts_nlFree (rs : RelationTypes)
    (hR : ∀ p ∈ rs, nlFree p.1 = true ∧
      ∀ c ∈ p.2, nlFree (jsShow c.from_) = true ∧ nlFree (jsShow c.to_) = true) :
    ∀ l ∈ relLineTexts rs, nlFree l = true := by
  intro l hl
  unfold relLineTexts at hl
  rcases List.mem_flatten.mp hl with ⟨inner, hinner, hlin⟩
  rcases List.mem_map.mp hinner with ⟨p, hp, rfl⟩
  rcases List.mem_map.mp hlin with ⟨c, hc, rfl⟩
  have hp' := (sortBy_perm _ rs).mem_iff.mp hp
  have hc' : c ∈ (groupConns p.2).map Prod.snd := (sortBy_perm connLe _).mem_iff.mp hc
  have hq := groupConns_nlFree p.2 (hR p hp').2 c hc'
  exact cLineText_nlFree p.1 c (hR p hp').1 hq.1 hq.2

theorem entityLineTexts_ne_empty (es : EntityTypes) :
    ∀ l ∈ entityLineTexts es, l ≠ "" := by
  intro l hl
  rcases List.mem_map.mp hl with ⟨p, _, rfl⟩
  exact eLineText_ne_empty p

theorem relLineTexts_ne_empty (rs : RelationTypes) :
    ∀ l ∈ relLineTexts rs, l ≠ "" := by
  intro l hl
  unfold relLineTexts at hl
  rcases List.mem_flatten.mp hl with ⟨inner, hinner, hlin⟩
  rcases List.mem_map.mp hinner with ⟨p, _, rfl⟩
  rcases List.mem_map.mp hlin with ⟨c, _, rfl⟩
  exact cLineText_ne_empty p.1 c

theorem map_mk_map_data (l : List String) :
    (l.map String.data).map String.mk = l := by
  rw [List.map_map]
  exact List.map_id l

/-- C2: `formatOntology` emits the fixed template. An all-empty ontology renders exactly the single literal sentence; an empty entity or relation half renders its literal placeholder in place of that half; otherwise the output splits at newlines into the sorted entity-type lines, exactly one blank line, the relation-type lines, and a final empty fragment from the trailing newline, every real line being nonempty; the entity-type entries and relation-type entries are emitted in lexicographically sorted key order (a permutation of the input), and each relation-type group is sorted by `(fromType, toType)`. Scope: type names are assumed newline-free, and every connection endpoint type is assumed present (`hDef`) — on an ontology with an `undefined` endpoint type the JS group-sort comparator of line 127 throws a TypeError (with engine-dependent receiver choice), so the program has no template output there and the embedding makes no assertion about it; the final clause shows that under `hDef` every connection the sort comparator touches keeps both endpoints present, so the covered domain never reaches the throwing path. -/
theorem formatOntology_template (o : Ontology)
    (hE : ∀ p ∈ o.entityTypes, nlFree p.1 = true)
    (hR : ∀ p ∈ o.relationTypes, nlFree p.1 = true ∧
      ∀ c ∈ p.2, nlFree (jsShow c.from_) = true ∧ nlFree (jsShow c.to_) = true)
    (hDef : ∀ p ∈ o.relationTypes, ∀ c ∈ p.2, c.from_ ≠ none ∧ c.to_ ≠ none) :
    (o.entityTypes = [] → o.relationTypes = [] →
      formatOntology o = "No entities or relations found in the knowledge graph.")
  ∧ (o.entityTypes = [] → o.relationTypes ≠ [] →
      formatOntology o
        = "No entity types found in the knowledge graph.\n\n" ++ relationBlock o.relationTypes)
  ∧ (o.entityTypes ≠ [] → o.relationTypes = [] →
      formatOntology o
        = entityBlock o.entityTypes ++ "\n" ++ "No relation types found in the knowledge graph.")
  ∧ (o.entityTypes ≠ [] → o.relationTypes ≠ [] →
      splitLines (formatOntology o)
        = entityLineTexts o.entityTypes ++ [""] ++ relLineTexts o.relationTypes ++ [""])
  ∧ (∀ l ∈ entityLineTexts o.entityTypes, l ≠ "")
  ∧ (∀ l ∈ relLineTexts o.relationTypes, l ≠ "")
  ∧ (sortBy (fun a b => strLe a.1 b.1) o.entityTypes).Pairwise (fun a b => strLe a.1 b.1 = true)
  ∧ (sortBy (fun a b => strLe a.1 b.1) o.entityTypes).Perm o.entityTypes
  ∧ (sortBy (fun a b => strLe a.1 b.1) o.relationTypes).Pairwise (fun a b => strLe a.1 b.1 = true)
  ∧ (sortBy (fun a b => strLe a.1 b.1) o.relationTypes).Perm o.relationTypes
  ∧ (∀ p ∈ o.relationTypes,
      (sortBy connLe ((groupConns p.2).map Prod.snd)).Pairwise (fun a b => connLe a b = true))
  ∧ ∀ p ∈ o.relationTypes, ∀ c ∈ sortBy connLe ((groupConns p.2).map Prod.snd),
      c.from_ ≠ none ∧ c.to_ ≠ none := by
  refine ⟨?_, ?_, ?_, ?_, entityLineTexts_ne_empty _, relLineTexts_ne_empty _, ?_, ?_, ?_, ?_,
    ?_, ?_⟩
  · intro h1 h2
    unfold formatOntology
    rw [if_pos ⟨h1, h2⟩]
  · intro h1 h2
    unfold formatOntology
    rw [if_neg (fun hc => h2 hc.2), if_pos h1, if_neg h2]
  · intro h1 h2
    unfold formatOntology
    rw [if_neg (fun hc => h1 hc.1), if_neg h1, if_pos h2]
  · intro h1 h2
    have hfmt : formatOntology o
        = entityBlock o.entityTypes ++ "\n" ++ relationBlock o.relationTypes := by
      unfold formatOntology
      rw [if_neg (fun hc => h1 hc.1), if_neg h1, if_neg h2]
    have hEnl : ∀ l ∈ (entityLineTexts o.entityTypes).map String.data, ∀ c ∈ l, c ≠ '\n' := by
      intro l hl
      rcases List.mem_map.mp hl with ⟨s, hs, rfl⟩
      exact (nlFree_iff s).mp (entityLineTexts_nlFree o.entityTypes hE s hs)
    have hRnl : ∀ l ∈ (relLineTexts o.relationTypes).map String.data, ∀ c ∈ l, c ≠ '\n' := by
      intro l hl
      rcases List.mem_map.mp hl with ⟨s, hs, rfl⟩
      exact (nlFree_iff s).mp (relLineTexts_nlFree o.relationTypes hR s hs)
    unfold splitLines
    rw [hfmt, String.data_append, String.data_append, entityBlock_data, relationBlock_data,
      show ("\n" : String).data = ['\n'] from rfl, List.append_assoc, List.singleton_append,
      splitOnNl_linesData _ _ hEnl, splitOnNl, if_pos rfl,
      show linesData ((relLineTexts o.relationTypes).map String.data)
        = linesData ((relLineTexts o.relationTypes).map String.data) ++ [] from
        (List.append_nil _).symm,
      splitOnNl_linesData _ _ hRnl]
    rw [List.map_append, map_mk_map_data, List.map_cons, List.map_append, map_mk_map_data]
    simp only [List.append_assoc, List.cons_append, List.nil_append,
      show String.mk [] = "" from rfl]
    rfl
  · exact sortBy_pairwise _ (fun a b => strLe_total a.1 b.1)
      (fun a b c => strLe_trans a.1 b.1 c.1) o.entityTypes
  · exact sortBy_perm _ o.entityTypes
  · exact sortBy_pairwise _ (fun a b => strLe_total a.1 b.1)
      (fun a b c => strLe_trans a.1 b.1 c.1) o.relationTypes
  · exact sortBy_perm _ o.relationTypes
  · intro p _
    exact sortBy_pairwise connLe connLe_total connLe_trans _
  · intro p hp c hc
    exact groupConns_defined p.2 (hDef p hp) c ((sortBy_perm connLe _).mem_iff.mp hc)

theorem formatOntology_template_witness :
    splitLines (formatOntology (extractOntology exampleGraph))
      = entityLineTexts (extractOntology exampleGraph).entityTypes ++ [""]
        ++ relLineTexts (extractOntology exampleGraph).relationTypes ++ [""] :=
  (formatOntology_template (extractOntology exampleGraph) (by decide) (by decide)
    (by decide)).2.2.2.1 (by decide) (by decide)
